import Mathlib

/-!
Verification of the cwlogs log viewer core (Go sources: `logstore.go`,
`model_methods.go`, the TUI model/update file, `parser.go`).

The Go code is embedded shallowly:

* `logStore` (ring buffer) is a structure with a `List` of entries, the
  `start` marker and the fixed `capacity`; the methods `Append`, `Len`,
  `Slice`, `UpdateEntry` are translated statement by statement.
* `logModel` (the TUI model) is a structure holding exactly the mutable
  fields the translated methods touch; each Go method becomes a function
  `logModel → logModel` (with extra results for returned `tea.Cmd`s).
* Go `int` is `Int` (Go `/` truncates toward zero, hence `Int.tdiv`);
  Go slice indexing that is guarded by explicit bounds checks is rendered
  with `List.getD`; `map[int]string` is an association list updated by
  `hlInsert`.
* External collaborators (the `regexp` and `encoding/json` libraries used
  by `formatLogMessage` in `parser.go`, `time.Time.Format`, and the
  lipgloss style renderers) are abstracted as an `Externals` record of pure
  functions, matching the spec's treatment of the formatter and renderer
  as external pure collaborators.  The compiled search pattern
  `"(?i)" + regexp.QuoteMeta(query)` is modelled by its semantics:
  case-insensitive literal substring match (`regexMatch`); ANSI stripping
  (`stripANSI`) and highlight substitution (`replaceAllCI`) are direct
  models of the two regex operations the search engine uses.
-/

/-- Record type of `logEntry` in `parser.go`: the original CloudWatch
message, the formatted message and the precomposed display line. -/
structure logEntry where
  Timestamp : Nat
  OriginalMessage : String
  Message : String
  Raw : String
deriving DecidableEq, Repr

instance : Inhabited logEntry := ⟨⟨0, "", "", ""⟩⟩

/-- Display configuration fields of `UIConfig` that the translated methods
read or write. -/
structure UIConfig where
  ParseAccessLogs : Bool
  ColorizeFields : Bool
  PrettyPrintJSON : Bool
deriving DecidableEq, Repr

/-- Ring buffer `logStore` from `logstore.go`: `entries` is the backing
slice, `start` the index of the oldest entry, `capacity` the fixed bound. -/
structure logStore where
  entries : List logEntry
  start : Nat
  capacity : Nat
deriving DecidableEq, Repr

/-- Constructor `newLogStore` from `logstore.go`. -/
def newLogStore (capacity : Nat) : logStore :=
  { entries := [], start := 0, capacity := capacity }

/-- Method `logStore.Append`: grow while below capacity, otherwise
overwrite the oldest slot and advance `start`; the boolean result reports
whether the buffer wrapped. -/
def logStore.Append (s : logStore) (entry : logEntry) : logStore × Bool :=
  if s.entries.length < s.capacity then
    ({ s with entries := s.entries ++ [entry] }, false)
  else
    ({ s with entries := s.entries.set s.start entry,
              start := (s.start + 1) % s.capacity }, true)

/-- Method `logStore.Len`. -/
def logStore.Len (s : logStore) : Nat :=
  s.entries.length

/-- Method `logStore.Slice`: the linearized chronological view; a two-part
copy (`entries[start:]` then `entries[:start]`) once the buffer is full. -/
def logStore.Slice (s : logStore) : List logEntry :=
  if s.entries.length < s.capacity then
    s.entries
  else
    s.entries.drop s.start ++ s.entries.take s.start

/-- Method `logStore.UpdateEntry`: bounds-checked in-place update of the
backing slice at `index` (the Go `index` is an `int`, so it can be
negative). -/
def logStore.UpdateEntry (s : logStore) (index : Int) (entry : logEntry) : logStore :=
  if index < 0 ∨ (s.entries.length : Int) ≤ index then s
  else { s with entries := s.entries.set index.toNat entry }

/-- Appending a whole batch, keeping only the final store (the ingestion
loop of the orchestrator does this, oring the wrap flags separately). -/
def appendAll (s : logStore) (es : List logEntry) : logStore :=
  es.foldl (fun s e => (s.Append e).1) s

/-- Structural well-formedness of a capacity-`C` store: every store
reachable from `newLogStore C` (for `C > 0`) satisfies it. -/
def logStore.Wf (C : Nat) (s : logStore) : Prop :=
  s.capacity = C ∧ s.entries.length ≤ C ∧
    (s.entries.length < C → s.start = 0) ∧ s.start < C

/-- Helper for concrete test records: a record whose three text fields all
equal the given string. -/
def strEntry (t : String) : logEntry :=
  { Timestamp := 0, OriginalMessage := t, Message := t, Raw := t }

/-! ## The TUI model

The `logModel` structure and its methods, translated from the TUI model
file and `model_methods.go`.  External library behaviour is bundled in
`Externals` (see the header comment). -/

/-- Commands returned to the bubbletea runtime by the translated methods.
`tickDelayedSearch q` is the 50 ms `tea.Tick` producing
`delayedSearchMsg` carrying `q`; the others are opaque task descriptions whose
bodies are IO. -/
inductive Cmd where
  | tickDelayedSearch : String → Cmd
  | fetchLogs : Cmd
  | expandSearchWindow : Cmd
  | clearFormatStatus : Cmd
deriving DecidableEq, Repr

/-- External collaborators of the core, as pure functions:
`fmtMsg` is `formatLogMessage` from `parser.go` (its body is Go `regexp`
and `encoding/json` library behaviour), `fmtTime` is
`time.Time.Format("15:04:05")`, `render` is the lipgloss highlight style
renderer, and `compile` is `regexp.Compile("(?i)" + regexp.QuoteMeta q)`,
whose success value is the compiled pattern, represented by the query it
quotes. -/
structure Externals where
  fmtMsg : String → UIConfig → String
  fmtTime : Nat → String
  render : String → String
  compile : String → Except String String

/-- The canonical compile: `regexp.QuoteMeta` escapes every
metacharacter, so compilation of the quoted query never fails in Go. -/
def goCompile : String → Except String String := fun q => .ok q

/-- State of the log viewer TUI (`logModel`), restricted to the fields
the translated methods read or write; `error` and `*regexp.Regexp`
values are represented by the message and pattern strings, the
`map[int]string` highlight cache by an association list. -/
structure logModel where
  store : Option logStore
  config : UIConfig
  cursor : Int
  searchMode : Bool
  searchQuery : String
  searchRegex : Option String
  «matches» : List Int
  currentMatch : Int
  height : Int
  width : Int
  lastToken : Option String
  loading : Bool
  lastError : Option String
  initialLoad : Bool
  fetchCount : Int
  followMode : Bool
  searchAttempt : Int
  currentTimeRange : Int
  statusMessage : String
  formatStatusMsg : String
  lastFormatState : Bool
  needsLazyReprocess : Bool
  lastLazyReprocess : Int
  highlighted : List (Int × String)
  lastSearchQuery : String
  backToLogGroups : Bool
deriving DecidableEq

/-- Batch message `logsWithTokenMsg` carrying fetched records. -/
structure logsWithTokenMsg where
  logs : List logEntry
  nextToken : Option String
  isInitial : Bool

/-- Constructor `makeLogEntry` from `parser.go`: the original message is
stored untouched, the formatted message and the display line are derived
by the formatter. -/
def makeLogEntry (ext : Externals) (ts : Nat) (originalMsg : String) (cfg : UIConfig) : logEntry :=
  let formatted := ext.fmtMsg originalMsg cfg
  { Timestamp := ts, OriginalMessage := originalMsg, Message := formatted,
    Raw := "[" ++ ext.fmtTime ts ++ "] " ++ formatted }

/-- Method `safeLogs`: the store's linear view, or `[]` for a nil store. -/
def safeLogs (m : logModel) : List logEntry :=
  match m.store with
  | none => []
  | some s => s.Slice

/-- Consume the parameter body of one ANSI escape `ESC [ [0-9;]* m`,
returning the rest of the input, or `none` if the pattern does not
complete. -/
def dropAnsiBody : List Char → Option (List Char)
  | [] => none
  | c :: rest =>
    if c = 'm' then some rest
    else if c.isDigit ∨ c = ';' then dropAnsiBody rest
    else none

/-- Scanner behind `stripANSI`: delete every occurrence of the regex
`ESC [ [0-9;]* m` from the character stream.  The recursion is
structural on a fuel argument so that the kernel can evaluate it; every
step consumes at least one input character, so any fuel at or above the
input length (the callers pass exactly the length) computes the full
scan. -/
def stripANSIFuel : Nat → List Char → List Char
  | 0, l => l
  | _ + 1, [] => []
  | n + 1, '\x1b' :: '[' :: rest2 =>
    match dropAnsiBody rest2 with
    | some rest3 => stripANSIFuel n rest3
    | none => '\x1b' :: stripANSIFuel n ('[' :: rest2)
  | n + 1, c :: rest => c :: stripANSIFuel n rest

/-- Model of `stripANSI` from `model_methods.go`. -/
def stripANSI (s : String) : String := ⟨stripANSIFuel s.data.length s.data⟩

/-- Literal sublist test: does `p` occur contiguously in the second
list? -/
def subList (p : List Char) : List Char → Bool
  | [] => p.isEmpty
  | c :: rest => p.isPrefixOf (c :: rest) || subList p rest

/-- Semantics of `regexp.MatchString` for the compiled pattern
`(?i)QuoteMeta(pat)`: case-insensitive literal substring match (the
`(?i)` flag is modelled by per-character case folding). -/
def regexMatch (pat target : String) : Bool :=
  subList (pat.data.map Char.toLower) (target.data.map Char.toLower)

/-- Case-insensitive prefix test on character lists, used by the
highlight substitution. -/
def ciAt : List Char → List Char → Bool
  | [], _ => true
  | _ :: _, [] => false
  | a :: as, b :: bs => (a.toLower = b.toLower) && ciAt as bs

/-- Scanner behind the highlight substitution, semantics of
`regex.ReplaceAllStringFunc` for the compiled quoted pattern: every
leftmost, non-overlapping, case-insensitive occurrence of `p` is replaced
by `render` applied to the matched text.  Structural on a fuel argument
for the same reason as `stripANSIFuel`; each step consumes at least one
character, so fuel = input length computes the full scan.  The `p = []`
guard is unreachable from `performSearch`, which rejects empty queries. -/
def replaceAllCIFuel (p : List Char) (render : String → String) : Nat → List Char → List Char
  | 0, l => l
  | _ + 1, [] => []
  | n + 1, c :: rest =>
    if !p.isEmpty && ciAt p (c :: rest) then
      (render ⟨(c :: rest).take p.length⟩).data ++
        replaceAllCIFuel p render n (rest.drop (p.length - 1))
    else c :: replaceAllCIFuel p render n rest

/-- String version of the highlight substitution. -/
def replaceAllCI (pat : String) (render : String → String) (t : String) : String :=
  ⟨replaceAllCIFuel pat.data render t.data.length t.data⟩

/-- Assignment `m[k] = v` on the association-list model of
`map[int]string`. -/
def hlInsert (m : List (Int × String)) (k : Int) (v : String) : List (Int × String) :=
  match m with
  | [] => [(k, v)]
  | (k', v') :: rest => if k' = k then (k, v) :: rest else (k', v') :: hlInsert rest k v

/-- Nil-tolerant wrapper for `m.store.UpdateEntry` calls (the Go receiver
is never nil at those call sites, which are guarded by `safeLogs`). -/
def storeUpdateEntry (st : Option logStore) (i : Int) (e : logEntry) : Option logStore :=
  st.map (fun s => s.UpdateEntry i e)

/-- Go's `abs` helper on ints. -/
def goAbs (x : Int) : Int := if x < 0 then -x else x

/-- Body of the `for i := lo; i < hi; i++` reprocessing loops: rebuild
the record at each index from its snapshot `logs` entry and write it back
through `UpdateEntry`; `n` counts the remaining iterations
(`(hi - lo).toNat` at the call sites). -/
def reprocessRange (ext : Externals) (cfg : UIConfig) (logs : List logEntry) :
    Nat → Int → Option logStore → Option logStore
  | 0, _, st => st
  | n + 1, i, st =>
    let log := logs.getD i.toNat default
    reprocessRange ext cfg logs n (i + 1)
      (storeUpdateEntry st i (makeLogEntry ext log.Timestamp log.OriginalMessage cfg))

/-- Method `reprocessVisibleLogs`: regenerate the records in a window of
twice the viewport height around the cursor. -/
def reprocessVisibleLogs (ext : Externals) (m : logModel) : logModel :=
  let logs := safeLogs m
  if logs.length = 0 then m
  else
    let viewportHeight := m.height - 6
    let bufferSize := viewportHeight * 2
    let lo := max 0 (m.cursor - bufferSize)
    let hi := min (logs.length : Int) (m.cursor + bufferSize)
    { m with store := reprocessRange ext m.config logs (hi - lo).toNat lo m.store }

/-- Method `lazyReprocessNearby`: throttled incremental reprocessing of a
small batch around the cursor, cleared once the whole view is covered. -/
def lazyReprocessNearby (ext : Externals) (m : logModel) : logModel :=
  if !m.needsLazyReprocess then m
  else
    let logs := safeLogs m
    if logs.length = 0 then m
    else if goAbs (m.cursor - m.lastLazyReprocess) < 10 then m
    else
      let viewportHeight := m.height - 6
      let batchSize := max 30 (Int.tdiv viewportHeight 2)
      let lo := max 0 (m.cursor - Int.tdiv batchSize 2)
      let hi := min (logs.length : Int) (lo + batchSize)
      let m1 := { m with store := reprocessRange ext m.config logs (hi - lo).toNat lo m.store,
                         lastLazyReprocess := m.cursor }
      if lo = 0 ∧ hi = (logs.length : Int) then { m1 with needsLazyReprocess := false } else m1

/-- Method `fixCursor`: clamp the cursor into the view, pin it to the
newest record under follow mode, then run the lazy reprocessing hook. -/
def fixCursor (ext : Externals) (m : logModel) : logModel :=
  let logs := safeLogs m
  if logs.length = 0 then { m with cursor := 0 }
  else
    let m1 := if (logs.length : Int) ≤ m.cursor then { m with cursor := (logs.length : Int) - 1 } else m
    let m2 := if m1.cursor < 0 then { m1 with cursor := 0 } else m1
    let m3 := if m2.followMode then { m2 with cursor := (logs.length : Int) - 1 } else m2
    lazyReprocessNearby ext m3

/-- Method `centerOnCursor`. -/
def centerOnCursor (ext : Externals) (m : logModel) : logModel :=
  fixCursor ext { m with followMode := false }

/-- Method `clearSearchState`. -/
def clearSearchState (m : logModel) : logModel :=
  { m with searchRegex := none, «matches» := [], currentMatch := 0,
           highlighted := [], lastSearchQuery := "" }

/-- The record at a matched position, re-rendered with match spans
highlighted (shared body of `applyHighlights` and
`refreshCurrentHighlight`). -/
def entryHighlight (ext : Externals) (pat : String) (log : logEntry) : String :=
  replaceAllCI pat ext.render (stripANSI log.Raw)

/-- Method `applyHighlights`: rebuild the highlight cache for every
in-bounds matched position. -/
def applyHighlights (ext : Externals) (m : logModel) : logModel :=
  match m.searchRegex with
  | none => { m with highlighted := [] }
  | some pat =>
    let logs := safeLogs m
    let hl := m.«matches».foldl (fun acc idx =>
      if idx < 0 ∨ (logs.length : Int) ≤ idx then acc
      else hlInsert acc idx (entryHighlight ext pat (logs.getD idx.toNat default))) []
    { m with highlighted := hl }

/-- Method `refreshCurrentHighlight`: re-render just the current match's
line (the unguarded Go indexing `m.«matches»[m.currentMatch]` is rendered
with `getD`; reachable states keep `currentMatch` within bounds). -/
def refreshCurrentHighlight (ext : Externals) (m : logModel) : logModel :=
  if m.«matches».length = 0 ∨ m.searchRegex = none then m
  else
    match m.searchRegex with
    | none => m
    | some pat =>
      let logs := safeLogs m
      let idx := m.«matches».getD m.currentMatch.toNat 0
      if idx < 0 ∨ (logs.length : Int) ≤ idx then m
      else
        let line := entryHighlight ext pat (logs.getD idx.toNat default)
        { m with highlighted := hlInsert m.highlighted idx line }

/-- Does a record match the compiled pattern?  Both the original message
and the ANSI-stripped display line are tried (`searchTargets` loop). -/
def entryMatchesPat (pat : String) (log : logEntry) : Bool :=
  regexMatch pat log.OriginalMessage || regexMatch pat (stripANSI log.Raw)

/-- Method `performSearch` from `model_methods.go`, statement by
statement: empty-query branch, cached-query branch, compile, full-buffer
scan, first-match selection, status message, highlight recomputation. -/
def performSearch (ext : Externals) (m : logModel) : logModel :=
  if m.searchQuery = "" then { m with «matches» := [], highlighted := [] }
  else if m.searchQuery = m.lastSearchQuery then m
  else
    let m0 := { m with lastSearchQuery := m.searchQuery }
    match ext.compile m0.searchQuery with
    | .error e => { m0 with statusMessage := "Invalid search pattern: " ++ e }
    | .ok pat =>
      let m1 := { m0 with searchRegex := some pat, «matches» := [] }
      let logs := safeLogs m1
      let ms : List Int := (logs.enum.filter (fun p => entryMatchesPat pat p.2)).map
        (fun p => (p.1 : Int))
      let m2 := { m1 with «matches» := ms }
      let m3 :=
        if 0 < ms.length then
          let ma := { m2 with currentMatch := 0, cursor := ms.headD 0, followMode := false }
          let mb := centerOnCursor ext ma
          { mb with statusMessage := "Found " ++ toString ms.length ++ " matches" }
        else
          { m2 with statusMessage := "No matches found for '" ++ m2.searchQuery ++ "'" }
      refreshCurrentHighlight ext (applyHighlights ext m3)

/-- The ingestion loop over a batch: append every record, or-ing the wrap
flags (a nil store would panic in Go; the program always initializes it,
and a nil store here reports no wrap). -/
def storeAppendLoop : Option logStore → List logEntry → Option logStore × Bool
  | none, _ => (none, false)
  | some s, logs =>
    let r := logs.foldl (fun (acc : logStore × Bool) log =>
      let s2 := acc.1.Append log
      (s2.1, acc.2 || s2.2)) (s, false)
    (some r.1, r.2)

/-- Tail of the `logsWithTokenMsg` handler: initial-load pagination,
window expansion for empty sessions, and load completion. -/
def ingestTail (msg : logsWithTokenMsg) (m : logModel) : logModel × Option Cmd :=
  if msg.isInitial ∧ msg.nextToken.isSome ∧ 0 < msg.logs.length ∧ m.fetchCount < 3 then
    ({ m with lastToken := msg.nextToken, fetchCount := m.fetchCount + 1 }, some Cmd.fetchLogs)
  else
    let logs := safeLogs m
    if msg.isInitial ∧ logs.length = 0 ∧ m.searchAttempt < 3 then
      (m, some Cmd.expandSearchWindow)
    else
      ({ m with initialLoad := false, lastToken := none, fetchCount := 0 }, none)

/-- Statements following the wrap handling inside the
`len(msg.logs) > 0` block: clamp the cursor, pin to the newest record
under follow mode, then fall through to the pagination tail. -/
def afterAppend (ext : Externals) (msg : logsWithTokenMsg) (m : logModel) : logModel × Option Cmd :=
  let m1 := fixCursor ext m
  let m2 :=
    if m1.followMode then
      let logs := safeLogs m1
      if 0 < logs.length then { m1 with cursor := (logs.length : Int) - 1 } else m1
    else m1
  ingestTail msg m2

/-- The `logsWithTokenMsg` case of `logModel.Update`: ingest the batch;
on a wrap, clear the search state, set the rollover status, clamp the
cursor, and (for an active pattern) return the deferred re-search tick
instead of falling through. -/
def updateLogsWithToken (ext : Externals) (msg : logsWithTokenMsg) (m : logModel) :
    logModel × Option Cmd :=
  let m0 := { m with loading := false, lastError := none }
  if 0 < msg.logs.length then
    let m1 := { m0 with statusMessage := "" }
    let r := storeAppendLoop m1.store msg.logs
    let m2 := { m1 with store := r.1 }
    if r.2 then
      let oldQuery := m2.searchQuery
      let m3 := clearSearchState m2
      let m4 := { m3 with statusMessage := "Log buffer rolled over" }
      let m5 := fixCursor ext m4
      if oldQuery ≠ "" then
        ({ m5 with searchQuery := oldQuery }, some (Cmd.tickDelayedSearch oldQuery))
      else
        afterAppend ext msg m5
    else
      afterAppend ext msg m2
  else
    ingestTail msg m0

/-- Method `toggleFormat`: flip the three format flags, clear search
state, reprocess the visible window, mark lazy reprocessing, recompute
highlights if matches remain, and set the format status message. -/
def toggleFormat (ext : Externals) (m : logModel) : logModel × Cmd :=
  let newVal := !m.config.ParseAccessLogs
  let cfg := { m.config with ParseAccessLogs := newVal, ColorizeFields := newVal, PrettyPrintJSON := newVal }
  let m0 := { m with config := cfg, lastFormatState := newVal }
  let m1 := clearSearchState m0
  let m2 := reprocessVisibleLogs ext m1
  let m3 := { m2 with needsLazyReprocess := true }
  let m4 := if 0 < List.length m3.«matches» then applyHighlights ext m3 else m3
  let m5 :=
    if m4.config.ParseAccessLogs then { m4 with formatStatusMsg := "Formatted mode enabled" }
    else { m4 with formatStatusMsg := "Raw mode enabled" }
  (m5, Cmd.clearFormatStatus)


/-- Externals instantiation used by concrete checks: identity formatter
and renderer, constant clock, the canonical compile. -/
def extId : Externals :=
  { fmtMsg := fun s _ => s, fmtTime := fun _ => "00:00:00",
    render := fun s => s, compile := goCompile }

/-- Externals instantiation whose pattern compilation fails, exercising
the error branch of `performSearch`. -/
def extErr : Externals :=
  { extId with compile := fun _ => .error "missing closing ]" }

/-- Base display configuration for concrete checks. -/
def baseConfig : UIConfig :=
  { ParseAccessLogs := false, ColorizeFields := false, PrettyPrintJSON := false }

/-- Base model state for concrete checks (fresh session defaults). -/
def baseModel : logModel :=
  { store := none, config := baseConfig, cursor := 0, searchMode := false,
    searchQuery := "", searchRegex := none, «matches» := [], currentMatch := 0,
    height := 30, width := 80, lastToken := none, loading := false,
    lastError := none, initialLoad := false, fetchCount := 0,
    followMode := false, searchAttempt := 0, currentTimeRange := 2,
    statusMessage := "", formatStatusMsg := "", lastFormatState := false,
    needsLazyReprocess := false, lastLazyReprocess := 0, highlighted := [],
    lastSearchQuery := "", backToLogGroups := false }

/-- A full capacity-2 store holding B, C (A already evicted): its raw
backing slice is [C, B] with the oldest marker at 1. -/
def store6 : logStore := appendAll (newLogStore 2) [strEntry "A", strEntry "B", strEntry "C"]

/-- A capacity-3 store holding A, B that has not wrapped. -/
def store6b : logStore := appendAll (newLogStore 3) [strEntry "A", strEntry "B"]

/-- Model with a full capacity-2 store and an active pattern, one more
batch of which forces a wrap. -/
def mC3 : logModel :=
  { baseModel with store := some (appendAll (newLogStore 2) [strEntry "A", strEntry "B"]),
                   searchQuery := "err" }

/-- Refresh batch with a single record for the wrap check. -/
def msgC3 : logsWithTokenMsg := { logs := [strEntry "C"], nextToken := none, isInitial := false }

/-- Model with two records and an out-of-range cursor for the clamp
check. -/
def mC4 : logModel :=
  { baseModel with store := some store6b, cursor := 5 }

/-- Model holding the spec's three search-correctness records with the
query "test" submitted. -/
def mC5 : logModel :=
  { baseModel with
    store := some (appendAll (newLogStore 5)
      [strEntry "This is a test", strEntry "nothing here", strEntry "another test case"]),
    searchQuery := "test", followMode := true, cursor := 1 }

/-- Model with a wrapped capacity-2 store for the format-toggle check
(height 8 makes the reprocessing window cover the whole view). -/
def mC7 : logModel :=
  { baseModel with store := some store6, cursor := 0, height := 8 }

/-- Model with leftover search state and an empty query. -/
def mC8 : logModel :=
  { baseModel with «matches» := [0], highlighted := [(0, "x")], statusMessage := "s" }

/-- Model with prior search state and a fresh (uncached) query. -/
def mC9 : logModel :=
  { baseModel with searchQuery := "boom", «matches» := [3], cursor := 7,
                   highlighted := [(3, "h")], followMode := true }

/-- Model resubmitting the exact query it last searched for. -/
def mC10 : logModel :=
  { baseModel with searchQuery := "abc", lastSearchQuery := "abc",
                   «matches» := [1], cursor := 1 }

/-- Model whose query and cached query are both empty while a stale
match set is still present. -/
def mC10cex : logModel :=
  { baseModel with searchQuery := "", lastSearchQuery := "", «matches» := [1] }

theorem newLogStore_wf {C : Nat} (hC : 0 < C) : (newLogStore C).Wf C := by
  refine ⟨rfl, by simp [newLogStore], fun _ => rfl, ?_⟩
  simpa [newLogStore] using hC

theorem append_wf {C : Nat} {s : logStore} (h : s.Wf C) (e : logEntry) :
    ((s.Append e).1).Wf C := by
  obtain ⟨hcap, hlen, hstart0, hstart⟩ := h
  subst hcap
  unfold logStore.Append
  by_cases hfull : s.entries.length < s.capacity
  · rw [if_pos hfull]
    exact ⟨rfl, by simp; omega, fun _ => hstart0 hfull, hstart⟩
  · rw [if_neg hfull]
    refine ⟨rfl, by simp [List.length_set]; omega, ?_, ?_⟩
    · intro hlt
      simp only [List.length_set] at hlt
      exact absurd hlt hfull
    · exact Nat.mod_lt _ (by omega)

theorem append_len {C : Nat} {s : logStore} (h : s.Wf C) (e : logEntry) :
    ((s.Append e).1).entries.length = min (s.entries.length + 1) C := by
  obtain ⟨hcap, hlen, _, _⟩ := h
  subst hcap
  unfold logStore.Append
  by_cases hfull : s.entries.length < s.capacity
  · rw [if_pos hfull]
    simp only [List.length_append, List.length_cons, List.length_nil]
    omega
  · rw [if_neg hfull]
    simp only [List.length_set]
    omega

theorem append_flag {C : Nat} {s : logStore} (h : s.Wf C) (e : logEntry) :
    (s.Append e).2 = true ↔ C ≤ s.entries.length := by
  obtain ⟨hcap, hlen, _, _⟩ := h
  subst hcap
  unfold logStore.Append
  by_cases hfull : s.entries.length < s.capacity
  · rw [if_pos hfull]
    simp only [Bool.false_eq_true, false_iff]
    omega
  · rw [if_neg hfull]
    simp only [true_iff]
    omega

theorem appendAll_wf {C : Nat} {s : logStore} (h : s.Wf C) (es : List logEntry) :
    (appendAll s es).Wf C := by
  induction es generalizing s with
  | nil => exact h
  | cons e es ih => exact ih (append_wf h e)

theorem appendAll_len {C : Nat} {s : logStore} (h : s.Wf C) (es : List logEntry) :
    (appendAll s es).entries.length = min (s.entries.length + es.length) C := by
  induction es generalizing s with
  | nil =>
    simp [appendAll]
    exact h.2.1
  | cons e es ih =>
    have h1 := append_wf h e
    have h2 := append_len h e
    have h3 := ih h1
    simp only [appendAll, List.foldl_cons] at *
    rw [h3, h2]
    have := h.2.1
    simp only [List.length_cons]
    omega

theorem appendAll_append (s : logStore) (es : List logEntry) (e : logEntry) :
    appendAll s (es ++ [e]) = ((appendAll s es).Append e).1 := by
  simp [appendAll, List.foldl_append]

/-- Growing append (below capacity) extends the view on the right. -/
theorem slice_append_grow {C : Nat} {s : logStore} (h : s.Wf C)
    (hlt : s.entries.length < s.capacity) (e : logEntry) :
    ((s.Append e).1).Slice = s.Slice ++ [e] := by
  obtain ⟨hcap, hlen, hstart0, hstart⟩ := h
  subst hcap
  have hs0 : s.start = 0 := hstart0 hlt
  unfold logStore.Append logStore.Slice
  rw [if_pos hlt]
  simp only [if_pos hlt]
  by_cases h2 : (s.entries ++ [e]).length < s.capacity
  · rw [if_pos h2]
  · rw [if_neg h2, hs0]
    simp

/-- Append at capacity drops the oldest view element and appends the new
one on the right. -/
theorem slice_append_full {C : Nat} {s : logStore} (h : s.Wf C)
    (hge : ¬ s.entries.length < s.capacity) (e : logEntry) :
    ((s.Append e).1).Slice = s.Slice.tail ++ [e] := by
  obtain ⟨hcap, hlen, hstart0, hstart⟩ := h
  subst hcap
  have hCpos : 0 < s.capacity := lt_of_le_of_lt (Nat.zero_le _) hstart
  have hlenC : s.entries.length = s.capacity := by omega
  have hstart_len : s.start < s.entries.length := hlenC ▸ hstart
  unfold logStore.Append logStore.Slice
  rw [if_neg hge]
  simp only [List.length_set]
  rw [if_neg hge, if_neg hge]
  have hset := List.set_eq_take_cons_drop e hstart_len
  -- the old view's tail
  have htail : (s.entries.drop s.start ++ s.entries.take s.start).tail
      = s.entries.drop (s.start + 1) ++ s.entries.take s.start := by
    rw [List.tail_append_of_ne_nil, List.tail_drop]
    intro hnil
    have := congrArg List.length hnil
    simp only [List.length_drop, List.length_nil] at this
    omega
  rw [htail]
  have hlen_take : (s.entries.take s.start).length = s.start := by
    simp [List.length_take]; omega
  by_cases hwrap : s.start + 1 < s.capacity
  · have hmod : (s.start + 1) % s.capacity = s.start + 1 := Nat.mod_eq_of_lt hwrap
    rw [hmod, hset]
    have hd : (s.entries.take s.start ++ e :: s.entries.drop (s.start + 1)).drop (s.start + 1)
        = s.entries.drop (s.start + 1) := by
      have := @List.drop_append _ (s.entries.take s.start)
        (e :: s.entries.drop (s.start + 1)) 1
      rw [hlen_take] at this
      simpa using this
    have ht : (s.entries.take s.start ++ e :: s.entries.drop (s.start + 1)).take (s.start + 1)
        = s.entries.take s.start ++ [e] := by
      have := @List.take_append _ (s.entries.take s.start)
        (e :: s.entries.drop (s.start + 1)) 1
      rw [hlen_take] at this
      simpa using this
    rw [hd, ht, List.append_assoc]
  · have hmod : (s.start + 1) % s.capacity = 0 := by
      have : s.start + 1 = s.capacity := by omega
      simp [this]
    rw [hmod, hset]
    have hdropC : s.entries.drop (s.start + 1) = [] := by
      apply List.drop_eq_nil_of_le
      omega
    simp [hdropC]

/-- After any sequence of appends into a fresh capacity-`C` store the view
is exactly the suffix of the history of length at most `C`. -/
theorem slice_appendAll {C : Nat} (hC : 0 < C) (es : List logEntry) :
    (appendAll (newLogStore C) es).Slice = es.drop (es.length - C) := by
  induction es using List.reverseRecOn with
  | nil => simp [appendAll, newLogStore, logStore.Slice]
  | append_singleton es e ih =>
    rw [appendAll_append]
    have hwf : (appendAll (newLogStore C) es).Wf C :=
      appendAll_wf (newLogStore_wf hC) es
    have hlen : (appendAll (newLogStore C) es).entries.length = min es.length C := by
      have := appendAll_len (newLogStore_wf hC) es
      simpa [newLogStore] using this
    by_cases hfull : (appendAll (newLogStore C) es).entries.length
        < (appendAll (newLogStore C) es).capacity
    · rw [slice_append_grow hwf hfull, ih]
      have hcap : (appendAll (newLogStore C) es).capacity = C := hwf.1
      rw [hcap] at hfull
      have heslen : es.length < C := by omega
      rw [Nat.sub_eq_zero_of_le (le_of_lt heslen), List.drop_zero,
        Nat.sub_eq_zero_of_le (by simp; omega), List.drop_zero]
    · rw [slice_append_full hwf hfull, ih]
      have hcap : (appendAll (newLogStore C) es).capacity = C := hwf.1
      rw [hcap] at hfull
      have heslen : C ≤ es.length := by omega
      have h1 : es.length - C + 1 ≤ es.length := by omega
      rw [List.tail_drop]
      have h2 : (es ++ [e]).length - C = es.length - C + 1 := by
        simp; omega
      rw [h2, List.drop_append_of_le_length h1]

/-- CLAIM C1: for every sequence of appends into a fresh store of capacity
`C > 0`, after the k-th append (0-based) the store's length is
`min (k+1) C`, and that append returned `wrapped = true` exactly when
`k ≥ C`; no append is ever rejected and the length never exceeds `C`. -/
theorem C1_append_len_wrapped {C : Nat} (hC : 0 < C) (es : List logEntry)
    (k : Nat) (hk : k < es.length) :
    (appendAll (newLogStore C) (es.take (k + 1))).Len = min (k + 1) C ∧
    (((appendAll (newLogStore C) (es.take k)).Append (es.get ⟨k, hk⟩)).2 = true ↔ C ≤ k) := by
  constructor
  · have := appendAll_len (newLogStore_wf hC) (es.take (k + 1))
    rw [logStore.Len, this]
    simp [newLogStore, List.length_take]
    omega
  · have hwf := appendAll_wf (newLogStore_wf hC) (es.take k)
    rw [append_flag hwf]
    have := appendAll_len (newLogStore_wf hC) (es.take k)
    rw [this]
    simp [newLogStore, List.length_take]
    omega

/-- Witness for C1 at capacity 3 with five appends: after the 4th append
(k = 3) the length is 3 and the append wrapped. -/
theorem C1_append_len_wrapped_witness :
    (0 : Nat) < 3 ∧ (3 : Nat) < 5 ∧
    (appendAll (newLogStore 3)
      ((["A", "B", "C", "D", "E"].map strEntry).take (3 + 1))).Len = min (3 + 1) 3 ∧
    ((((appendAll (newLogStore 3) ((["A", "B", "C", "D", "E"].map strEntry).take 3)).Append
        ((["A", "B", "C", "D", "E"].map strEntry).get ⟨3, by decide⟩)).2 = true) ↔ 3 ≤ 3) := by
  refine ⟨by decide, by decide, ?_, ?_⟩
  · exact (@C1_append_len_wrapped 3 (by decide)
      (["A", "B", "C", "D", "E"].map strEntry) 3 (by decide)).1
  · exact (@C1_append_len_wrapped 3 (by decide)
      (["A", "B", "C", "D", "E"].map strEntry) 3 (by decide)).2

/-- CLAIM C2: once at least `C` records have been appended, the view is
exactly the last `C` appended records, oldest first. -/
theorem C2_slice_last_C {C : Nat} (hC : 0 < C) (es : List logEntry)
    (hlen : C ≤ es.length) :
    (appendAll (newLogStore C) es).Slice = es.drop (es.length - C) ∧
    (appendAll (newLogStore C) es).Slice.length = C := by
  refine ⟨slice_appendAll hC es, ?_⟩
  rw [slice_appendAll hC es]
  simp [List.length_drop]
  omega

/-- Witness for C2: capacity 3 with appends A,B,C,D,E gives view [C,D,E]. -/
theorem C2_slice_last_C_witness :
    (0 : Nat) < 3 ∧
    (appendAll (newLogStore 3) (["A", "B", "C", "D", "E"].map strEntry)).Slice
      = ["C", "D", "E"].map strEntry := by
  refine ⟨by decide, ?_⟩
  have h := @C2_slice_last_C 3 (by decide)
    (["A", "B", "C", "D", "E"].map strEntry) (by decide)
  rw [h.1]
  decide

/-! ## Frame lemmas

The reprocessing hooks rewrite store slots but never change the store's
shape (count, oldest marker, capacity), hence never the view length; and
none of the cursor-fixing paths touch the search state. -/

theorem safeLogs_congr {m' m : logModel} (h : m'.store = m.store) :
    safeLogs m' = safeLogs m := by
  unfold safeLogs
  rw [h]

theorem UpdateEntry_shape (s : logStore) (i : Int) (e : logEntry) :
    (s.UpdateEntry i e).entries.length = s.entries.length ∧
    (s.UpdateEntry i e).start = s.start ∧
    (s.UpdateEntry i e).capacity = s.capacity := by
  unfold logStore.UpdateEntry
  split <;> simp

theorem Slice_length_eq (s : logStore) :
    s.Slice.length = if s.entries.length < s.capacity then s.entries.length
      else (s.entries.length - s.start) + min s.start s.entries.length := by
  unfold logStore.Slice
  split <;> simp [List.length_append, List.length_drop, List.length_take]

theorem Slice_length_shape {s' s : logStore}
    (hl : s'.entries.length = s.entries.length) (hs : s'.start = s.start)
    (hc : s'.capacity = s.capacity) : s'.Slice.length = s.Slice.length := by
  rw [Slice_length_eq, Slice_length_eq, hl, hs, hc]

theorem reprocessRange_none (ext : Externals) (cfg : UIConfig) (logs : List logEntry) :
    ∀ (n : Nat) (i : Int), reprocessRange ext cfg logs n i none = none := by
  intro n
  induction n with
  | zero => intro i; rfl
  | succ n ih =>
    intro i
    simp only [reprocessRange, storeUpdateEntry, Option.map_none]
    exact ih (i + 1)

theorem reprocessRange_shape (ext : Externals) (cfg : UIConfig) (logs : List logEntry) :
    ∀ (n : Nat) (i : Int) (s : logStore), ∃ s',
      reprocessRange ext cfg logs n i (some s) = some s' ∧
      s'.entries.length = s.entries.length ∧ s'.start = s.start ∧
      s'.capacity = s.capacity := by
  intro n
  induction n with
  | zero => intro i s; exact ⟨s, rfl, rfl, rfl, rfl⟩
  | succ n ih =>
    intro i s
    set e := makeLogEntry ext (logs.getD i.toNat default).Timestamp
      (logs.getD i.toNat default).OriginalMessage cfg with he
    obtain ⟨s', h1, h2, h3, h4⟩ := ih (i + 1) (s.UpdateEntry i e)
    obtain ⟨u1, u2, u3⟩ := UpdateEntry_shape s i e
    refine ⟨s', ?_, by omega, by rw [h3, u2], by rw [h4, u3]⟩
    simp only [reprocessRange, storeUpdateEntry, Option.map_some]
    exact h1

theorem safeLogs_length_reprocessed (ext : Externals) (cfg : UIConfig)
    (logs : List logEntry) (n : Nat) (i : Int) {m' m : logModel}
    (hst : m'.store = reprocessRange ext cfg logs n i m.store) :
    (safeLogs m').length = (safeLogs m).length := by
  unfold safeLogs
  cases hms : m.store with
  | none =>
    rw [hms, reprocessRange_none] at hst
    rw [hst]
  | some s =>
    obtain ⟨s', h1, h2, h3, h4⟩ := reprocessRange_shape ext cfg logs n i s
    rw [hms, h1] at hst
    rw [hst]
    exact Slice_length_shape h2 h3 h4

theorem lazyReprocessNearby_frame (ext : Externals) (m : logModel) :
    (lazyReprocessNearby ext m).«matches» = m.«matches» ∧
    (lazyReprocessNearby ext m).highlighted = m.highlighted ∧
    (lazyReprocessNearby ext m).cursor = m.cursor ∧
    (lazyReprocessNearby ext m).followMode = m.followMode ∧
    (lazyReprocessNearby ext m).searchQuery = m.searchQuery ∧
    (lazyReprocessNearby ext m).statusMessage = m.statusMessage ∧
    (safeLogs (lazyReprocessNearby ext m)).length = (safeLogs m).length := by
  simp only [lazyReprocessNearby]
  by_cases h1 : (!m.needsLazyReprocess) = true
  · rw [if_pos h1]
    exact ⟨rfl, rfl, rfl, rfl, rfl, rfl, rfl⟩
  · rw [if_neg h1]
    by_cases h2 : (safeLogs m).length = 0
    · rw [if_pos h2]
      exact ⟨rfl, rfl, rfl, rfl, rfl, rfl, rfl⟩
    · rw [if_neg h2]
      by_cases h3 : goAbs (m.cursor - m.lastLazyReprocess) < 10
      · rw [if_pos h3]
        exact ⟨rfl, rfl, rfl, rfl, rfl, rfl, rfl⟩
      · rw [if_neg h3]
        split
        · refine ⟨rfl, rfl, rfl, rfl, rfl, rfl, ?_⟩
          exact safeLogs_length_reprocessed ext m.config (safeLogs m) _ _ rfl
        · refine ⟨rfl, rfl, rfl, rfl, rfl, rfl, ?_⟩
          exact safeLogs_length_reprocessed ext m.config (safeLogs m) _ _ rfl

/-- Clamp phase of `fixCursor` on a non-empty view: the model handed to
the lazy-reprocessing hook has a cursor in `[0, len)`, pinned to
`len - 1` under follow mode, and untouched search state. -/
theorem fixCursor_clamp (ext : Externals) (m : logModel)
    (h0 : ¬ (safeLogs m).length = 0) :
    ∃ m3 : logModel, fixCursor ext m = lazyReprocessNearby ext m3 ∧
      m3.store = m.store ∧ m3.followMode = m.followMode ∧
      m3.«matches» = m.«matches» ∧ m3.highlighted = m.highlighted ∧
      m3.searchQuery = m.searchQuery ∧ m3.statusMessage = m.statusMessage ∧
      0 ≤ m3.cursor ∧ m3.cursor < ((safeLogs m).length : Int) ∧
      (m3.followMode = true → m3.cursor = ((safeLogs m).length : Int) - 1) := by
  have hpos : 0 < (safeLogs m).length := Nat.pos_of_ne_zero h0
  simp only [fixCursor]
  rw [if_neg h0]
  refine ⟨_, rfl, ?_, ?_, ?_, ?_, ?_, ?_, ?_, ?_, ?_⟩ <;>
    (split_ifs <;> simp_all <;> omega)

theorem fixCursor_frame (ext : Externals) (m : logModel) :
    (fixCursor ext m).«matches» = m.«matches» ∧
    (fixCursor ext m).highlighted = m.highlighted ∧
    (fixCursor ext m).searchQuery = m.searchQuery ∧
    (fixCursor ext m).statusMessage = m.statusMessage ∧
    (fixCursor ext m).followMode = m.followMode ∧
    (safeLogs (fixCursor ext m)).length = (safeLogs m).length := by
  by_cases h0 : (safeLogs m).length = 0
  · have heq : fixCursor ext m = { m with cursor := 0 } := by
      simp only [fixCursor]
      rw [if_pos h0]
    rw [heq]
    refine ⟨rfl, rfl, rfl, rfl, rfl, ?_⟩
    have h2 : safeLogs { m with cursor := 0 } = safeLogs m := safeLogs_congr rfl
    rw [h2]
  · obtain ⟨m3, heq, hstore, hfol, hma, hhl, hsq, hsm, _, _, _⟩ := fixCursor_clamp ext m h0
    have lf := lazyReprocessNearby_frame ext m3
    have hsl3 : safeLogs m3 = safeLogs m := safeLogs_congr hstore
    rw [heq]
    exact ⟨lf.1.trans hma, lf.2.1.trans hhl, lf.2.2.2.2.1.trans hsq,
      lf.2.2.2.2.2.1.trans hsm, lf.2.2.2.1.trans hfol,
      by rw [lf.2.2.2.2.2.2, hsl3]⟩

/-- CLAIM C4: after `fixCursor` the cursor is `0` on an empty view, lies
in `[0, len(view))` on a non-empty view, and equals `len(view) - 1`
whenever follow mode is on and the view is non-empty. -/
theorem C4_fixCursor_invariant (ext : Externals) (m : logModel) :
    ((safeLogs (fixCursor ext m)).length = 0 → (fixCursor ext m).cursor = 0) ∧
    (0 < (safeLogs (fixCursor ext m)).length →
      0 ≤ (fixCursor ext m).cursor ∧
      (fixCursor ext m).cursor < ((safeLogs (fixCursor ext m)).length : Int)) ∧
    ((fixCursor ext m).followMode = true → 0 < (safeLogs (fixCursor ext m)).length →
      (fixCursor ext m).cursor = ((safeLogs (fixCursor ext m)).length : Int) - 1) := by
  by_cases h0 : (safeLogs m).length = 0
  · have heq : fixCursor ext m = { m with cursor := 0 } := by
      simp only [fixCursor]
      rw [if_pos h0]
    have hsl : (safeLogs (fixCursor ext m)).length = 0 := by
      rw [heq, safeLogs_congr (rfl : ({ m with cursor := 0 } : logModel).store = m.store)]
      exact h0
    refine ⟨fun _ => by rw [heq], ?_, ?_⟩
    · intro hpos
      rw [hsl] at hpos
      exact absurd hpos (lt_irrefl 0)
    · intro _ hpos
      rw [hsl] at hpos
      exact absurd hpos (lt_irrefl 0)
  · obtain ⟨m3, heq, hstore, hfol, hma, hhl, hsq, hsm, hc0, hclt, hcf⟩ :=
      fixCursor_clamp ext m h0
    have lf := lazyReprocessNearby_frame ext m3
    have hsl3 : safeLogs m3 = safeLogs m := safeLogs_congr hstore
    have hlen : (safeLogs (fixCursor ext m)).length = (safeLogs m).length := by
      rw [heq, lf.2.2.2.2.2.2, hsl3]
    have hcur : (fixCursor ext m).cursor = m3.cursor := by
      rw [heq]
      exact lf.2.2.1
    have hfol2 : (fixCursor ext m).followMode = m3.followMode := by
      rw [heq]
      exact lf.2.2.2.1
    refine ⟨?_, ?_, ?_⟩
    · intro hz
      rw [hlen] at hz
      exact absurd hz h0
    · intro _
      rw [hcur, hlen]
      exact ⟨hc0, hclt⟩
    · intro hf _
      rw [hcur, hlen]
      exact hcf (hfol2 ▸ hf)

/-- Witness for C4: the out-of-range cursor 5 over a two-record view is
clamped into `[0, 2)`. -/
theorem C4_fixCursor_invariant_witness :
    0 < (safeLogs (fixCursor extId mC4)).length ∧
    0 ≤ (fixCursor extId mC4).cursor ∧
    (fixCursor extId mC4).cursor < ((safeLogs (fixCursor extId mC4)).length : Int) := by
  refine ⟨by decide, ?_, ?_⟩
  · exact ((C4_fixCursor_invariant extId mC4).2.1 (by decide)).1
  · exact ((C4_fixCursor_invariant extId mC4).2.1 (by decide)).2

theorem storeAppendLoop_nil (st : Option logStore) : (storeAppendLoop st []).2 = false := by
  cases st <;> rfl

theorem ingestTail_frame (msg : logsWithTokenMsg) (m : logModel) :
    (ingestTail msg m).1.«matches» = m.«matches» ∧
    (ingestTail msg m).1.highlighted = m.highlighted := by
  simp only [ingestTail]
  split_ifs <;> exact ⟨rfl, rfl⟩

theorem afterAppend_frame (ext : Externals) (msg : logsWithTokenMsg) (m : logModel) :
    (afterAppend ext msg m).1.«matches» = m.«matches» ∧
    (afterAppend ext msg m).1.highlighted = m.highlighted := by
  simp only [afterAppend]
  have hf := fixCursor_frame ext m
  split_ifs with h1 h2
  · obtain ⟨it1, it2⟩ := ingestTail_frame msg
      { fixCursor ext m with cursor := ((safeLogs (fixCursor ext m)).length : Int) - 1 }
    exact ⟨it1.trans hf.1, it2.trans hf.2.1⟩
  · obtain ⟨it1, it2⟩ := ingestTail_frame msg (fixCursor ext m)
    exact ⟨it1.trans hf.1, it2.trans hf.2.1⟩
  · obtain ⟨it1, it2⟩ := ingestTail_frame msg (fixCursor ext m)
    exact ⟨it1.trans hf.1, it2.trans hf.2.1⟩

/-- CLAIM C3: whenever ingesting a batch makes some `Append` report a
wrap, the handler returns with the match set and the highlight cache
cleared, and, if a pattern was active, with the deferred re-search
command (a tick that later delivers `delayedSearchMsg`) instead of
re-running the search inside the same transition. -/
theorem C3_wrap_invalidates (ext : Externals) (msg : logsWithTokenMsg) (m : logModel)
    (hw : (storeAppendLoop m.store msg.logs).2 = true) :
    (updateLogsWithToken ext msg m).1.«matches» = [] ∧
    (updateLogsWithToken ext msg m).1.highlighted = [] ∧
    (m.searchQuery ≠ "" →
      (updateLogsWithToken ext msg m).2 = some (Cmd.tickDelayedSearch m.searchQuery)) := by
  have hlogs : 0 < msg.logs.length := by
    by_contra hn
    have hnil : msg.logs = [] := List.length_eq_zero.mp (by omega)
    rw [hnil, storeAppendLoop_nil] at hw
    exact Bool.false_ne_true hw
  simp only [updateLogsWithToken]
  rw [if_pos hlogs]
  have hstore : ({ m with loading := false, lastError := none, statusMessage := "" } : logModel).store
      = m.store := rfl
  rw [hstore, hw]
  simp only [if_true]
  set m4 : logModel :=
    { clearSearchState
        { m with loading := false, lastError := none, statusMessage := "",
                 store := (storeAppendLoop m.store msg.logs).1 }
      with statusMessage := "Log buffer rolled over" } with hm4
  have hm4m : m4.«matches» = [] := rfl
  have hm4h : m4.highlighted = [] := rfl
  have hm4q : m4.searchQuery = m.searchQuery := rfl
  have hf := fixCursor_frame ext m4
  by_cases hq : m.searchQuery ≠ ""
  · rw [if_pos (by exact hq)]
    refine ⟨?_, ?_, fun _ => rfl⟩
    · exact hf.1.trans hm4m
    · exact hf.2.1.trans hm4h
  · rw [if_neg (by exact hq)]
    obtain ⟨a1, a2⟩ := afterAppend_frame ext msg (fixCursor ext m4)
    refine ⟨a1.trans (hf.1.trans hm4m), a2.trans (hf.2.1.trans hm4h), fun hq2 => absurd hq2 hq⟩

/-- Witness for C3: appending one record to a full capacity-2 store with
the active pattern "err" wraps, clears the match data and schedules the
deferred re-search for "err". -/
theorem C3_wrap_invalidates_witness :
    (storeAppendLoop mC3.store msgC3.logs).2 = true ∧
    (updateLogsWithToken extId msgC3 mC3).1.«matches» = [] ∧
    (updateLogsWithToken extId msgC3 mC3).2 = some (Cmd.tickDelayedSearch "err") := by
  refine ⟨by decide, ?_, ?_⟩
  · exact (C3_wrap_invalidates extId msgC3 mC3 (by decide)).1
  · exact (C3_wrap_invalidates extId msgC3 mC3 (by decide)).2.2 (by decide)

/-- Record-level description of `performSearch` on an empty query. -/
theorem performSearch_empty (ext : Externals) (m : logModel) (hq : m.searchQuery = "") :
    performSearch ext m = { m with «matches» := [], highlighted := [] } := by
  simp only [performSearch]
  rw [if_pos hq]

/-- CLAIM C8: an empty pattern is not an error: the match set becomes
empty, the highlight cache is cleared, and the status message (hence no
error status) is untouched. -/
theorem C8_empty_query (ext : Externals) (m : logModel) (hq : m.searchQuery = "") :
    (performSearch ext m).«matches» = [] ∧
    (performSearch ext m).highlighted = [] ∧
    (performSearch ext m).statusMessage = m.statusMessage := by
  rw [performSearch_empty ext m hq]
  exact ⟨rfl, rfl, rfl⟩

/-- Witness for C8 on a model with leftover search state. -/
theorem C8_empty_query_witness :
    mC8.searchQuery = "" ∧
    (performSearch extId mC8).«matches» = [] ∧
    (performSearch extId mC8).highlighted = [] ∧
    (performSearch extId mC8).statusMessage = mC8.statusMessage := by
  have h := C8_empty_query extId mC8 (by decide)
  exact ⟨by decide, h.1, h.2.1, h.2.2⟩

/-- Record-level description of `performSearch` when compilation fails. -/
theorem performSearch_error (ext : Externals) (m : logModel) (e : String)
    (h1 : ¬ m.searchQuery = "") (h2 : ¬ m.searchQuery = m.lastSearchQuery)
    (h3 : ext.compile m.searchQuery = .error e) :
    performSearch ext m =
      { m with lastSearchQuery := m.searchQuery,
               statusMessage := "Invalid search pattern: " ++ e } := by
  simp only [performSearch]
  rw [if_neg h1, if_neg h2]
  have hsc : ({ m with lastSearchQuery := m.searchQuery } : logModel).searchQuery
      = m.searchQuery := rfl
  rw [hsc, h3]

/-- CLAIM C9: if pattern compilation fails, `performSearch` surfaces a
recoverable status message and leaves the match set, current match,
cursor, follow flag and highlight cache untouched. -/
theorem C9_invalid_pattern (ext : Externals) (m : logModel) (e : String)
    (h1 : ¬ m.searchQuery = "") (h2 : ¬ m.searchQuery = m.lastSearchQuery)
    (h3 : ext.compile m.searchQuery = .error e) :
    (performSearch ext m).«matches» = m.«matches» ∧
    (performSearch ext m).currentMatch = m.currentMatch ∧
    (performSearch ext m).cursor = m.cursor ∧
    (performSearch ext m).followMode = m.followMode ∧
    (performSearch ext m).highlighted = m.highlighted ∧
    (performSearch ext m).statusMessage = "Invalid search pattern: " ++ e := by
  rw [performSearch_error ext m e h1 h2 h3]
  exact ⟨rfl, rfl, rfl, rfl, rfl, rfl⟩

/-- Witness for C9: a compile failure leaves the prior match 3 and cursor
7 in place and only sets the status text. -/
theorem C9_invalid_pattern_witness :
    ¬ mC9.searchQuery = "" ∧ ¬ mC9.searchQuery = mC9.lastSearchQuery ∧
    extErr.compile mC9.searchQuery = .error "missing closing ]" ∧
    (performSearch extErr mC9).«matches» = mC9.«matches» ∧
    (performSearch extErr mC9).cursor = mC9.cursor ∧
    (performSearch extErr mC9).highlighted = mC9.highlighted ∧
    (performSearch extErr mC9).statusMessage = "Invalid search pattern: " ++ "missing closing ]" := by
  have h := C9_invalid_pattern extErr mC9 "missing closing ]" (by decide) (by decide) rfl
  exact ⟨by decide, by decide, rfl, h.1, h.2.2.1, h.2.2.2.2.1, h.2.2.2.2.2⟩

/-- CLAIM C10 (amended): resubmitting the cached query is a no-op only
for non-empty queries; an empty query always falls into the clearing
branch first. -/
theorem C10_cached_query_noop (ext : Externals) (m : logModel)
    (h1 : ¬ m.searchQuery = "") (h2 : m.searchQuery = m.lastSearchQuery) :
    performSearch ext m = m := by
  simp only [performSearch]
  rw [if_neg h1, if_pos h2]

/-- Witness for C10 (amended): the cached non-empty query "abc" is a
complete no-op. -/
theorem C10_cached_query_noop_witness :
    ¬ mC10.searchQuery = "" ∧ mC10.searchQuery = mC10.lastSearchQuery ∧
    performSearch extId mC10 = mC10 :=
  ⟨by decide, by decide, C10_cached_query_noop extId mC10 (by decide) (by decide)⟩

/-- Counterexample to C10 as stated: with query and cached query both
empty and a stale match set present, `performSearch` is not a no-op —
it clears the match set. -/
theorem C10_counterexample :
    mC10cex.searchQuery = mC10cex.lastSearchQuery ∧
    mC10cex.«matches» = [1] ∧
    (performSearch extId mC10cex).«matches» = [] ∧
    performSearch extId mC10cex ≠ mC10cex := by decide

/-- CLAIM C5 (code evaluation): searching "test" over the spec's three
records finds positions [0, 2], but the code designates position 0 (the
oldest match, `matches[0]`) as current and moves the cursor there — not
the most recent position 2 promised by the spec and the README; follow
mode is disabled as claimed. -/
theorem C5_selects_oldest_not_latest :
    (performSearch extId mC5).«matches» = [0, 2] ∧
    (performSearch extId mC5).currentMatch = 0 ∧
    (performSearch extId mC5).cursor = 0 ∧
    (performSearch extId mC5).followMode = false ∧
    (performSearch extId mC5).statusMessage = "Found 2 matches" := by decide

/-- Counterexample to C6 as stated: on the wrapped store holding view
[B, C] (raw slice [C, B], oldest marker 1), `UpdateEntry 0 X` writes the
raw slot 0, so view position 0 still holds B while X shows up at view
position 1. -/
theorem C6_counterexample :
    (0 : Int) < (store6.Len : Int) ∧
    (store6.UpdateEntry 0 (strEntry "X")).Slice.getD 0 default ≠ strEntry "X" ∧
    (store6.UpdateEntry 0 (strEntry "X")).Slice.getD 0 default = strEntry "B" ∧
    (store6.UpdateEntry 0 (strEntry "X")).Slice.getD 1 default = strEntry "X" := by decide

/-- CLAIM C6 (amended): `UpdateEntry p r` writes raw backing slot `p`,
which coincides with view position `p` exactly when the buffer has not
wrapped (`start = 0`): then `Slice` afterwards is the old view with only
position `p` replaced; the count is always unchanged, and an
out-of-bounds `p` is a no-op. -/
theorem C6_updateEntry_amended (s : logStore) (p : Int) (r : logEntry) :
    ((p < 0 ∨ (s.Len : Int) ≤ p) → s.UpdateEntry p r = s) ∧
    (s.UpdateEntry p r).Len = s.Len ∧
    (s.start = 0 → 0 ≤ p → p < (s.Len : Int) →
      (s.UpdateEntry p r).Slice = s.Slice.set p.toNat r) := by
  refine ⟨?_, ?_, ?_⟩
  · intro h
    unfold logStore.UpdateEntry
    rw [if_pos (by simpa [logStore.Len] using h)]
  · unfold logStore.UpdateEntry logStore.Len
    split <;> simp
  · intro hs hp0 hplen
    have hinb : ¬ (p < 0 ∨ (s.entries.length : Int) ≤ p) := by
      unfold logStore.Len at hplen
      push_neg
      omega
    have hsl : ∀ t : logStore, t.start = 0 → t.Slice = t.entries := by
      intro t ht
      unfold logStore.Slice
      split
      · rfl
      · rw [ht]
        simp
    unfold logStore.UpdateEntry
    rw [if_neg hinb, hsl _ (by simpa using hs), hsl s hs]

/-- Witness for C6 (amended) on a store that has not wrapped: updating
position 1 replaces exactly that view slot and keeps the count. -/
theorem C6_updateEntry_amended_witness :
    store6b.start = 0 ∧ (0 : Int) ≤ 1 ∧ (1 : Int) < (store6b.Len : Int) ∧
    (store6b.UpdateEntry 1 (strEntry "X")).Slice = store6b.Slice.set 1 (strEntry "X") ∧
    (store6b.UpdateEntry 1 (strEntry "X")).Len = store6b.Len := by
  have h := C6_updateEntry_amended store6b 1 (strEntry "X")
  exact ⟨by decide, by decide, by decide, h.2.2 (by decide) (by decide) (by decide), h.2.1⟩

/-- CLAIM C7 (code evaluation): toggling the display mode over the
wrapped capacity-2 store with view originals [B, C] leaves the count at 2
but swaps the stored originals to [C, B]: `reprocessVisibleLogs` writes
view-indexed records back through raw-indexed `UpdateEntry`, moving
`OriginalMessage`s to different view positions on a wrapped buffer. -/
theorem C7_toggle_moves_originals :
    (safeLogs mC7).map logEntry.OriginalMessage = ["B", "C"] ∧
    (safeLogs (toggleFormat extId mC7).1).map logEntry.OriginalMessage = ["C", "B"] ∧
    (safeLogs (toggleFormat extId mC7).1).length = (safeLogs mC7).length := by decide
